import Mathlib

/-!
Verification of the Mappy request gateway and its collaborators, as a shallow
embedding of the Python sources: `maps.py` (HTTP gateway with retry/backoff),
`rate.py` (rate limiter), `caches.py` (in-memory and SQLite caches),
`geocode.py` (geocoder), `places.py` (text-search fallback) and `excel.py`
(batch enrichment).  Machine floats holding timestamps, QPS rates and backoff
seconds are modelled as exact rationals; Python dicts are association lists
with insert-or-replace update; the wall clock and `time.sleep` are modelled by
explicit clock passing.
-/

namespace Mappy

/-- Lookup in a Python-dict model: first binding of the key wins (a Python
dict holds each key once, so this is exact). -/
def dictGet {α : Type} : List (String × α) → String → Option α
  | [], _ => none
  | (k', v) :: rest, k => if k' = k then some v else dictGet rest k

/-- Python `d[k] = v`: replace the binding in place when the key is present,
otherwise append it (insertion order preserved, as in CPython dicts). -/
def dictInsert {α : Type} : List (String × α) → String → α → List (String × α)
  | [], k, v => [(k, v)]
  | (k', v') :: rest, k, v =>
      if k' = k then (k, v) :: rest else (k', v') :: dictInsert rest k v

theorem dictGet_dictInsert {α : Type} (d : List (String × α)) (k : String) (v : α) :
    dictGet (dictInsert d k v) k = some v := by
  induction d with
  | nil => simp [dictInsert, dictGet]
  | cons hd tl ih =>
      obtain ⟨k', v'⟩ := hd
      by_cases h : k' = k
      · simp [dictInsert, dictGet, h]
      · simp [dictInsert, dictGet, h, ih]

/-!
### rate.py — `RateLimiter`

`__init__` stores `_interval = 1.0 / qps if qps and qps > 0 else 0.0` and
`_last = 0.0`.  `wait()` returns immediately when `_interval <= 0`; otherwise
it reads the clock, sleeps for the deficit when the elapsed time since `_last`
is below `_interval`, and records the post-sleep clock in `_last`.  The model
passes the clock explicitly: `time.sleep(d)` advances the clock by `d`, and
`time.time()` reads the current clock.
-/

structure RateLimiter where
  interval : ℚ
  last : ℚ

/-- Translation of `RateLimiter.__init__`: `qps` is `Optional[float]`; the
Python guard `qps and qps > 0` is `False` for `None`, for `0` (falsy) and for
negative rates, so the interval is `1 / qps` exactly when `0 < qps`. -/
def RateLimiter.init (qps : Option ℚ) : RateLimiter :=
  { interval := match qps with
      | some q => if 0 < q then 1 / q else 0
      | none => 0
    last := 0 }

structure WaitOutcome where
  state : RateLimiter
  slept : ℚ
  retTime : ℚ

/-- Translation of `RateLimiter.wait` with an explicit clock: `now` is the
value `time.time()` returns on entry; sleeping advances the clock, and the
second `time.time()` call (stored into `_last`) reads the advanced clock.
`retTime` is the clock value at which `wait` returns. -/
def RateLimiter.wait (rl : RateLimiter) (now : ℚ) : WaitOutcome :=
  if rl.interval ≤ 0 then ⟨rl, 0, now⟩
  else
    let delta := now - rl.last
    if delta < rl.interval then
      let d := rl.interval - delta
      ⟨⟨rl.interval, now + d⟩, d, now + d⟩
    else ⟨⟨rl.interval, now⟩, 0, now⟩

theorem wait_state_interval (rl : RateLimiter) (now : ℚ) :
    (rl.wait now).state.interval = rl.interval := by
  unfold RateLimiter.wait
  split
  · rfl
  · dsimp only
    split <;> rfl

theorem wait_state_last (rl : RateLimiter) (now : ℚ) (h : 0 < rl.interval) :
    (rl.wait now).state.last = (rl.wait now).retTime := by
  unfold RateLimiter.wait
  rw [if_neg (not_le.mpr h)]
  dsimp only
  split <;> rfl

theorem wait_retTime_ge (rl : RateLimiter) (now : ℚ) (h : 0 < rl.interval) :
    rl.last + rl.interval ≤ (rl.wait now).retTime := by
  unfold RateLimiter.wait
  rw [if_neg (not_le.mpr h)]
  dsimp only
  split
  · rename_i hlt; dsimp only; linarith
  · rename_i hge; rw [not_lt] at hge; dsimp only; linarith

/-- C8: for every configured rate `qps > 0`, two consecutive returns of
`RateLimiter.wait()` are separated by at least `1/qps` seconds (sleep modelled
as advancing the clock), from any prior limiter state and any clock readings;
and for `qps` absent (`None`) or `≤ 0`, `wait()` never sleeps and returns
immediately at the current clock. -/
theorem C8_rate_limiter_spacing (qps : Option ℚ) (last now1 now2 : ℚ) :
    (∀ q : ℚ, qps = some q → 0 < q →
      1 / q ≤ ((RateLimiter.wait ⟨(RateLimiter.init qps).interval, last⟩ now1).state.wait
          now2).retTime -
        (RateLimiter.wait ⟨(RateLimiter.init qps).interval, last⟩ now1).retTime) ∧
    ((qps = none ∨ ∃ q : ℚ, qps = some q ∧ q ≤ 0) →
      (RateLimiter.wait ⟨(RateLimiter.init qps).interval, last⟩ now1).slept = 0 ∧
      (RateLimiter.wait ⟨(RateLimiter.init qps).interval, last⟩ now1).retTime = now1) := by
  constructor
  · rintro q rfl hq
    have hint : (RateLimiter.init (some q)).interval = 1 / q := by
      simp [RateLimiter.init, hq]
    have hpos : (0 : ℚ) < 1 / q := by positivity
    set rl1 : RateLimiter := ⟨(RateLimiter.init (some q)).interval, last⟩ with hrl1
    have hi1 : rl1.interval = 1 / q := hint
    have hpos1 : 0 < rl1.interval := by rw [hi1]; exact hpos
    set w1 := rl1.wait now1 with hw1
    have hi2 : w1.state.interval = 1 / q := by rw [hw1, wait_state_interval, hi1]
    have hl2 : w1.state.last = w1.retTime := by rw [hw1]; exact wait_state_last rl1 now1 hpos1
    have hge := wait_retTime_ge w1.state now2 (by rw [hi2]; exact hpos)
    rw [hl2, hi2] at hge
    linarith
  · intro h
    have hint : (RateLimiter.init qps).interval = 0 := by
      rcases h with h | ⟨q, rfl, hq⟩
      · simp [h, RateLimiter.init]
      · simp [RateLimiter.init, not_lt.mpr hq]
    rw [hint]
    simp [RateLimiter.wait]

/-- Witness for C8 at concrete inputs: `qps = 2` gives a gap of at least
`1/2`, and `qps = None` gives an immediate no-sleep return. -/
theorem C8_rate_limiter_spacing_witness :
    (1 / 2 ≤ ((RateLimiter.wait ⟨(RateLimiter.init (some 2)).interval, 0⟩ 5).state.wait
          5).retTime -
        (RateLimiter.wait ⟨(RateLimiter.init (some 2)).interval, 0⟩ 5).retTime) ∧
    (RateLimiter.wait ⟨(RateLimiter.init none).interval, 0⟩ 5).slept = 0 ∧
    (RateLimiter.wait ⟨(RateLimiter.init none).interval, 0⟩ 5).retTime = 5 := by
  refine ⟨?_, ?_⟩
  · exact (C8_rate_limiter_spacing (some 2) 0 5 5).1 2 rfl (by norm_num)
  · exact (C8_rate_limiter_spacing none 0 5 5).2 (Or.inl rfl)

/-!
### maps.py — `Maps.request`

The `while True` loop copies the caller's params, injects the API key, issues
the GET and classifies the response: status 200 returns the parsed body;
statuses in `(408, 429, 500, 502, 503, 504)` raise a "Transient HTTP" gateway
error and any other status raises an "HTTP" gateway error.  The `except`
clause catches `requests.Timeout`, `requests.ConnectionError` **and**
`GatewayError` alike (so both classes of raised gateway error land in the
retry path), increments `attempt`, re-raises "Exceeded retries" once
`attempt > max_retries`, and otherwise sleeps the current backoff and doubles
it capped at `backoff_max`.  Network nondeterminism is an oracle giving the
outcome of each successive attempt; the rate-limiter `wait()` preceding each
attempt is modelled separately in `rate.py` above and does not affect the
retry bookkeeping recorded here.
-/

structure MapsCfg where
  apiKey : String
  maxRetries : ℕ
  backoffMin : ℚ
  backoffMax : ℚ

/-- What one outbound attempt can produce: an HTTP response with a status and
a body text, or one of the two `requests` transport exceptions. -/
inductive HttpOutcome where
  | resp (status : ℕ) (body : String)
  | timeout
  | connError
deriving DecidableEq

/-- The exception the try-body died with on a failed attempt. -/
inductive AttemptError where
  | gateway (msg : String)
  | timeoutExc
  | connExc
deriving DecidableEq

def transientStatuses : List ℕ := [408, 429, 500, 502, 503, 504]

/-- Classification of one attempt, `Sum.inl` being the 200 success body and
`Sum.inr` the exception caught by the `except` clause. -/
def classifyAttempt : HttpOutcome → Sum String AttemptError
  | .resp 200 body => .inl body
  | .resp s body =>
      if s ∈ transientStatuses then
        .inr (.gateway ("Transient HTTP " ++ toString s ++ ": " ++ body.take 200))
      else
        .inr (.gateway ("HTTP " ++ toString s ++ ": " ++ body.take 200))
  | .timeout => .inr .timeoutExc
  | .connError => .inr .connExc

inductive ReqOutcome where
  | success (body : String)
  | exceededRetries (inner : AttemptError)
deriving DecidableEq

structure ReqTrace where
  outcome : ReqOutcome
  attempts : ℕ
  sleeps : List ℚ
  queries : List (List (String × String))
deriving DecidableEq

/-- One pass of the `while True` body and the retries that follow it.  The
fuel (first argument) is the number of retries still allowed: the Python guard
`attempt > max_retries` fires exactly when `max_retries` retries have already
been consumed.  Each iteration rebuilds `q = dict(params); q["key"] = key`
from the same caller params, so each attempt's query is recorded. -/
def requestLoop (cfg : MapsCfg) (params : List (String × String))
    (oracle : ℕ → HttpOutcome) : ℕ → ℕ → ℚ → ReqTrace
  | 0, idx, _ =>
      let q := dictInsert params "key" cfg.apiKey
      match classifyAttempt (oracle idx) with
      | .inl body => ⟨.success body, 1, [], [q]⟩
      | .inr err => ⟨.exceededRetries err, 1, [], [q]⟩
  | fuel' + 1, idx, backoff =>
      let q := dictInsert params "key" cfg.apiKey
      match classifyAttempt (oracle idx) with
      | .inl body => ⟨.success body, 1, [], [q]⟩
      | .inr _ =>
          let t := requestLoop cfg params oracle fuel' (idx + 1)
            (min (backoff * 2) cfg.backoffMax)
          ⟨t.outcome, t.attempts + 1, backoff :: t.sleeps, q :: t.queries⟩

structure RequestResult extends ReqTrace where
  callerParams : List (String × String)

/-- Translation of `Maps.request`: `attempt` starts at 0 and `backoff` at
`backoff_min`; the caller's `params` dict is only ever read (each iteration
copies it before inserting the key), so it is returned unchanged as
`callerParams`, the post-call state of the caller's mapping. -/
def Maps.request (cfg : MapsCfg) (params : List (String × String))
    (oracle : ℕ → HttpOutcome) : RequestResult :=
  { requestLoop cfg params oracle cfg.maxRetries 0 cfg.backoffMin with
    callerParams := params }

/-- A transient outcome in the sense of the retry classification: a timeout,
a connection failure, or an HTTP status in {408, 429, 500, 502, 503, 504}. -/
def TransientOutcome (o : HttpOutcome) : Prop :=
  o = .timeout ∨ o = .connError ∨
    ∃ s body, o = .resp s body ∧ s ∈ transientStatuses

theorem classifyAttempt_transient {o : HttpOutcome} (h : TransientOutcome o) :
    ∃ e, classifyAttempt o = .inr e := by
  rcases h with rfl | rfl | ⟨s, body, rfl, hs⟩
  · exact ⟨.timeoutExc, rfl⟩
  · exact ⟨.connExc, rfl⟩
  · simp only [transientStatuses, List.mem_cons, List.not_mem_nil, or_false] at hs
    rcases hs with rfl | rfl | rfl | rfl | rfl | rfl <;> exact ⟨_, rfl⟩

theorem min_double_cap {a m : ℚ} (hm : 0 ≤ m) :
    min (min a m * 2) m = min (a * 2) m := by
  rcases le_or_lt a m with h | h
  · rw [min_eq_left h]
  · rw [min_eq_right h.le, min_eq_right (by linarith), min_eq_right (by linarith)]

theorem requestLoop_transient_spec (cfg : MapsCfg) (params : List (String × String))
    (oracle : ℕ → HttpOutcome)
    (h0 : 0 ≤ cfg.backoffMin) (h1 : cfg.backoffMin ≤ cfg.backoffMax)
    (htr : ∀ i, TransientOutcome (oracle i)) :
    ∀ fuel idx k,
      (∃ e, (requestLoop cfg params oracle fuel idx
          (min (cfg.backoffMin * 2 ^ k) cfg.backoffMax)).outcome =
        .exceededRetries e) ∧
      (requestLoop cfg params oracle fuel idx
          (min (cfg.backoffMin * 2 ^ k) cfg.backoffMax)).attempts = fuel + 1 ∧
      (requestLoop cfg params oracle fuel idx
          (min (cfg.backoffMin * 2 ^ k) cfg.backoffMax)).sleeps =
        (List.range fuel).map (fun n => min (cfg.backoffMin * 2 ^ (k + n)) cfg.backoffMax) := by
  intro fuel
  induction fuel with
  | zero =>
      intro idx k
      obtain ⟨e, he⟩ := classifyAttempt_transient (htr idx)
      refine ⟨⟨e, ?_⟩, ?_, ?_⟩ <;> simp [requestLoop, he]
  | succ fuel' ih =>
      intro idx k
      obtain ⟨e, he⟩ := classifyAttempt_transient (htr idx)
      simp only [requestLoop, he]
      have hcap : min (min (cfg.backoffMin * 2 ^ k) cfg.backoffMax * 2) cfg.backoffMax =
          min (cfg.backoffMin * 2 ^ (k + 1)) cfg.backoffMax := by
        rw [min_double_cap (le_trans h0 h1), pow_succ, mul_assoc]
      rw [hcap]
      obtain ⟨⟨e', he'⟩, hat, hsl⟩ := ih (idx + 1) (k + 1)
      refine ⟨⟨e', he'⟩, by rw [hat], ?_⟩
      have hfun2 : (fun n => min (cfg.backoffMin * 2 ^ (k + 1 + n)) cfg.backoffMax) =
          ((fun n => min (cfg.backoffMin * 2 ^ (k + n)) cfg.backoffMax) ∘ Nat.succ) := by
        funext n
        simp only [Function.comp_apply, Nat.succ_eq_add_one]
        rw [show k + 1 + n = k + (n + 1) from by omega]
      rw [hsl, List.range_succ_eq_map, List.map_cons, List.map_map, hfun2, Nat.add_zero]

/-- C2: for every all-transient outcome sequence (and any sanely configured
retry policy, the spec's RetryPolicy invariant `0 ≤ backoff_min ≤
backoff_max`), `Maps.request` consumes exactly `max_retries + 1` attempts —
one per transient outcome — fails with the "Exceeded retries" `GatewayError`
once attempts exceed `max_retries`, and before the (n+1)-th retry sleeps
exactly `min(backoff_min * 2 ^ n, backoff_max)`. -/
theorem C2_transient_retry_backoff (cfg : MapsCfg) (params : List (String × String))
    (oracle : ℕ → HttpOutcome)
    (h0 : 0 ≤ cfg.backoffMin) (h1 : cfg.backoffMin ≤ cfg.backoffMax)
    (htr : ∀ i, TransientOutcome (oracle i)) :
    (∃ e, (Maps.request cfg params oracle).outcome = .exceededRetries e) ∧
    (Maps.request cfg params oracle).attempts = cfg.maxRetries + 1 ∧
    (Maps.request cfg params oracle).sleeps =
      (List.range cfg.maxRetries).map
        (fun n => min (cfg.backoffMin * 2 ^ n) cfg.backoffMax) := by
  have hstart : cfg.backoffMin = min (cfg.backoffMin * 2 ^ 0) cfg.backoffMax := by
    rw [pow_zero, mul_one, min_eq_left h1]
  have h := requestLoop_transient_spec cfg params oracle h0 h1 htr cfg.maxRetries 0 0
  have hfun : (fun n => min (cfg.backoffMin * 2 ^ (0 + n)) cfg.backoffMax) =
      (fun n => min (cfg.backoffMin * 2 ^ n) cfg.backoffMax) := by
    funext n
    rw [Nat.zero_add]
  rw [hfun] at h
  refine ⟨?_, ?_, ?_⟩
  · obtain ⟨e, he⟩ := h.1
    refine ⟨e, ?_⟩
    show (requestLoop cfg params oracle cfg.maxRetries 0 cfg.backoffMin).outcome = _
    conv_lhs => rw [hstart]
    exact he
  · show (requestLoop cfg params oracle cfg.maxRetries 0 cfg.backoffMin).attempts = _
    conv_lhs => rw [hstart]
    exact h.2.1
  · show (requestLoop cfg params oracle cfg.maxRetries 0 cfg.backoffMin).sleeps = _
    conv_lhs => rw [hstart]
    exact h.2.2

/-- Witness for C2 at a concrete input: `max_retries = 2`, `backoff_min = 1`,
`backoff_max = 30` and an all-timeout oracle give 3 attempts, an
exceeded-retries failure and the backoff schedule `[1, 2]`. -/
theorem C2_transient_retry_backoff_witness :
    (∃ e, (Maps.request ⟨"k", 2, 1, 30⟩ [] (fun _ => .timeout)).outcome =
      .exceededRetries e) ∧
    (Maps.request ⟨"k", 2, 1, 30⟩ [] (fun _ => .timeout)).attempts = 3 ∧
    (Maps.request ⟨"k", 2, 1, 30⟩ [] (fun _ => .timeout)).sleeps = [1, 2] := by
  have h := C2_transient_retry_backoff ⟨"k", 2, 1, 30⟩ [] (fun _ => .timeout)
    (by norm_num) (by norm_num) (fun i => Or.inl rfl)
  refine ⟨h.1, h.2.1, ?_⟩
  rw [h.2.2]
  norm_num [List.range_succ]

/-- Input exhibiting C1's divergence: the first response is a non-transient
HTTP 404 and every later response is HTTP 200. -/
def c1Oracle : ℕ → HttpOutcome :=
  fun i => if i = 0 then .resp 404 "not found" else .resp 200 "payload"

/-- C1 (evaluation at the failing input): with default-style settings
(`max_retries = 5`, `backoff_min = 1`), a request whose first response is a
non-transient HTTP 404 does **not** fail with `GatewayError` on that first
response: the `except` clause catches the non-transient `GatewayError`, the
loop sleeps 1 second, performs a second attempt, and here returns the 200
payload — contradicting "fails immediately … without sleeping and without
performing any further attempt". -/
theorem C1_nontransient_status_is_retried :
    (Maps.request ⟨"k", 5, 1, 30⟩ [] c1Oracle).outcome = .success "payload" ∧
    (Maps.request ⟨"k", 5, 1, 30⟩ [] c1Oracle).attempts = 2 ∧
    (Maps.request ⟨"k", 5, 1, 30⟩ [] c1Oracle).sleeps = [1] := by
  refine ⟨rfl, rfl, rfl⟩

theorem requestLoop_queries (cfg : MapsCfg) (params : List (String × String))
    (oracle : ℕ → HttpOutcome) :
    ∀ fuel idx backoff,
      (requestLoop cfg params oracle fuel idx backoff).queries =
        List.replicate (requestLoop cfg params oracle fuel idx backoff).attempts
          (dictInsert params "key" cfg.apiKey) := by
  intro fuel
  induction fuel with
  | zero =>
      intro idx backoff
      simp only [requestLoop]
      cases classifyAttempt (oracle idx) <;> rfl
  | succ fuel' ih =>
      intro idx backoff
      simp only [requestLoop]
      cases classifyAttempt (oracle idx) with
      | inl body => rfl
      | inr err =>
          dsimp only
          rw [ih]
          rfl

/-- C9: the credential is injected into a per-call copy: for every call to
`Maps.request` the caller's parameter mapping is unchanged afterwards (so it
never gains a `"key"` entry it did not have), and every outbound attempt's
query parameters are exactly the caller's parameters with the `"key"`
credential entry inserted. -/
theorem C9_key_injected_into_copy (cfg : MapsCfg) (params : List (String × String))
    (oracle : ℕ → HttpOutcome) :
    (Maps.request cfg params oracle).callerParams = params ∧
    (Maps.request cfg params oracle).queries =
      List.replicate (Maps.request cfg params oracle).attempts
        (dictInsert params "key" cfg.apiKey) :=
  ⟨rfl, requestLoop_queries cfg params oracle cfg.maxRetries 0 cfg.backoffMin⟩

/-!
### JSON values

Python values flowing through the resolution services and the caches are
JSON-serializable: `None`, booleans, numbers, strings, lists and dicts.
Numbers are modelled as exact decimals `m × 10^(-e)` (`e = 0` is a Python
`int`, `e > 0` a float written with `e` decimal places), dicts as ordered
association lists.
-/

inductive Json where
  | null
  | bool (b : Bool)
  | num (m : ℤ) (e : ℕ)
  | str (s : String)
  | arr (elems : List Json)
  | obj (fields : List (String × Json))

/-- A Python dict with string keys and JSON-serializable values. -/
abbrev PyDict := List (String × Json)

/-- Python truthiness of a JSON-serializable value. -/
def Json.truthy : Json → Bool
  | .null => false
  | .bool b => b
  | .num m _ => m != 0
  | .str s => s != ""
  | .arr xs => !xs.isEmpty
  | .obj kvs => !kvs.isEmpty

/-- Truthiness of a `dict.get` result (`None` for a missing key). -/
def optTruthy : Option Json → Bool
  | none => false
  | some j => j.truthy

/-- Python `j.get(k)` on a dict-shaped value (`None` on anything else or on a
missing key). -/
def jget (j : Json) (k : String) : Option Json :=
  match j with
  | .obj kvs => dictGet kvs k
  | _ => none

/-- Python `j.get(k, dflt) or dflt` for a falsy default (`{}` or `[]`). -/
def pyGetOrDflt (j : Json) (k : String) (dflt : Json) : Json :=
  match jget j k with
  | some v => if v.truthy then v else dflt
  | none => dflt

/-- Python `expr or None` applied to a `dict.get` result. -/
def pyOrNone (v : Option Json) : Json :=
  match v with
  | some j => if j.truthy then j else .null
  | none => .null

/-- The list held at key `k`, as used under a `get(k, []) or []` guard (the
upstream responses carry JSON lists at these keys). -/
def jlist (j : Json) (k : String) : List Json :=
  match jget j k with
  | some (.arr xs) => xs
  | _ => []

/-- The string content of a JSON string value (the response fields joined or
interpolated by the code are strings). -/
def jstr : Json → String
  | .str s => s
  | _ => ""

/-!
### geocode.py — `Geocoder`

`key_for(prefix, *parts)` joins the stripped non-empty parts with a single
space after `prefix + "::"`.  `freeform(address, country)` derives the key
`key_for('geocode', address, country or "")`, returns a truthy cache hit,
otherwise issues the geocode request (with a `components=country:<upper>`
filter when the country hint is truthy) and raises `NotFound` when the status
is not "OK" or the results are falsy.  The whole body sits in a blanket
`except Exception` that shows an `ErrorDialog` and returns `None`, so no
exception ever reaches the caller; moreover the write-back guard reads
`self.cache`, an attribute the constructor never assigns (it sets `_cache`),
so the success path itself dies with `AttributeError` and returns `None`.
-/

/-- A cache as the geocoder sees it: key → stored dict. -/
abbrev CacheStore := List (String × PyDict)

/-- The Python exceptions arising in the resolution services. -/
inductive PyExc where
  | notFound (msg : String)
  | attributeError (name : String)
  | valueError (msg : String)
  | typeError (msg : String)
deriving DecidableEq

/-- The whitespace set of Python's `str.strip()` (ASCII part). -/
def pyWhitespace (c : Char) : Bool :=
  [' ', '\t', '\n', '\r', '\x0b', '\x0c'].contains c

/-- Python `s.strip()`: drop leading and trailing whitespace. -/
def pyStrip (s : String) : String :=
  ⟨((s.data.dropWhile pyWhitespace).reverse.dropWhile pyWhitespace).reverse⟩

/-- Translation of `Geocoder.key_for`: the generator keeps parts that are
truthy and strip to something non-empty, strips them, and joins with `' '`. -/
def Geocoder.keyFor (tag : String) (parts : List String) : String :=
  tag ++ "::" ++
    String.intercalate " "
      ((parts.filter (fun p => p != "" && pyStrip p != "")).map pyStrip)

/-- The cache key `freeform` derives: `key_for('geocode', address,
country or "")`. -/
def Geocoder.derivedKey (address : String) (country : Option String) : String :=
  Geocoder.keyFor "geocode" [address, country.getD ""]

/-- Translation of the `comp(kind, want_long)` closure in `_flatten_geocode`:
the long or short name of the first address component whose `types` contain
`kind`, with a falsy name collapsed to `None`. -/
def compGet (comps : List Json) (kind : String) (wantLong : Bool) : Json :=
  match comps with
  | [] => .null
  | c :: rest =>
      if (jlist c "types").any (fun t => jstr t == kind && t.truthy) then
        pyOrNone (jget c (if wantLong then "long_name" else "short_name"))
      else compGet rest kind wantLong

/-- Translation of `_flatten_geocode`: reduce one geocode result into the
row-friendly dict of the eleven enrichment fields. -/
def flattenGeocode (result : Json) : PyDict :=
  let geometry := pyGetOrDflt result "geometry" (.obj [])
  let loc := pyGetOrDflt geometry "location" (.obj [])
  let comps := jlist result "address_components"
  let locality :=
    let l1 := compGet comps "locality" false
    if l1.truthy then l1 else compGet comps "postal_town" false
  [("formatted_address", (jget result "formatted_address").getD .null),
   ("lat", (jget loc "lat").getD .null),
   ("lng", (jget loc "lng").getD .null),
   ("place_id", (jget result "place_id").getD .null),
   ("types", if optTruthy (jget result "types") then
       .str (String.intercalate "," ((jlist result "types").map jstr)) else .null),
   ("country_code", compGet comps "country" false),
   ("country_name", compGet comps "country" true),
   ("admin_level_1", compGet comps "administrative_area_level_1" false),
   ("admin_level_2", compGet comps "administrative_area_level_2" false),
   ("locality", locality),
   ("postal_code", compGet comps "postal_code" false)]

/-- The observable outcome of one `Geocoder.freeform` call: the value
returned to the caller, the exception the blanket `except` swallowed into an
`ErrorDialog` (if any), the number of `maps.request` calls made, and the
cache contents afterwards.  No field records an exception propagating to the
caller because the blanket `except Exception` of the source leaves no such
path. -/
structure FreeformRes where
  ret : Option PyDict
  dialog : Option PyExc
  requests : ℕ
  cacheAfter : Option CacheStore

/-- The cache-miss path of `freeform`: build the components filter, issue the
request, raise `NotFound` on a non-OK or empty response — swallowed into the
dialog — and on a usable response flatten the first result and then die on
`if self.cache:`: the constructor assigns `self._cache`, never `self.cache`
(which is only a class-level annotation), so this attribute access raises
`AttributeError`, equally swallowed; the flattened output is never returned
and the cache is never written. -/
def Geocoder.freeformMiss (cache : Option CacheStore)
    (upstream : List (String × String) → Json)
    (address : String) (country : Option String) : FreeformRes :=
  let comps : List (String × String) := match country with
    | some c => if c != "" then [("country", c.toUpper)] else []
    | none => []
  let params := ("address", address) :: comps
  let data := upstream params
  let okStatus : Bool := match jget data "status" with
    | some (.str s) => s == "OK"
    | _ => false
  if !okStatus || !optTruthy (jget data "results") then
    ⟨none, some (.notFound ("No geocode for \"" ++ address ++ "\" ")), 1, cache⟩
  else
    match jget data "results" with
    | some (.arr (r :: _)) =>
        let _output := flattenGeocode r
        ⟨none, some (.attributeError "cache"), 1, cache⟩
    | _ =>
        ⟨none, some (.typeError "results not subscriptable"), 1, cache⟩

/-- Translation of `Geocoder.freeform`: derive the key, return a truthy
cached hit as-is, otherwise run the miss path. -/
def Geocoder.freeform (cache : Option CacheStore)
    (upstream : List (String × String) → Json)
    (address : String) (country : Option String) : FreeformRes :=
  let key := Geocoder.derivedKey address country
  let hit : Option PyDict := match cache with
    | some store => dictGet store key
    | none => none
  match hit with
  | some d =>
      if !d.isEmpty then ⟨some d, none, 0, cache⟩
      else Geocoder.freeformMiss cache upstream address country
  | none => Geocoder.freeformMiss cache upstream address country

/-- An upstream response reporting no results. -/
def zeroResultsResp : Json := .obj [("status", .str "ZERO_RESULTS"), ("results", .arr [])]

/-- C3 (evaluation at the failing input): on an upstream response whose
status is not "OK" and whose results are empty, `freeform` does **not** fail
with `NotFound` towards its caller: the `NotFound` raised internally is
caught by the blanket `except Exception`, an `ErrorDialog` is shown, and the
call returns the value `None` to the caller — contradicting "fails with
NotFound (raised to its caller) … it never returns a value to the caller". -/
theorem C3_notfound_swallowed_returns_none :
    (Geocoder.freeform none (fun _ => zeroResultsResp) "Atlantis" none).ret = none ∧
    (Geocoder.freeform none (fun _ => zeroResultsResp) "Atlantis" none).dialog =
      some (.notFound "No geocode for \"Atlantis\" ") ∧
    (Geocoder.freeform none (fun _ => zeroResultsResp) "Atlantis" none).requests = 1 :=
  ⟨rfl, rfl, rfl⟩

theorem freeformMiss_requests (cache : Option CacheStore)
    (upstream : List (String × String) → Json)
    (address : String) (country : Option String) :
    (Geocoder.freeformMiss cache upstream address country).requests = 1 := by
  simp only [Geocoder.freeformMiss]
  split
  · rfl
  · split <;> rfl

/-- C10: a cache hit in `freeform` requires a truthy stored value, not mere
key presence: when the stored value under the derived key is the empty dict
(falsy), `freeform` treats the lookup as a miss and issues the upstream
geocode request anyway; and only a non-empty cached mapping is returned
without any upstream call. -/
theorem C10_cache_hit_requires_truthy (store : CacheStore)
    (upstream : List (String × String) → Json)
    (address : String) (country : Option String) :
    (dictGet store (Geocoder.derivedKey address country) = some [] →
      (Geocoder.freeform (some store) upstream address country).requests = 1) ∧
    (∀ d : PyDict, d ≠ [] →
      dictGet store (Geocoder.derivedKey address country) = some d →
      (Geocoder.freeform (some store) upstream address country).ret = some d ∧
      (Geocoder.freeform (some store) upstream address country).requests = 0) := by
  constructor
  · intro h
    simp only [Geocoder.freeform, h, List.isEmpty_nil, Bool.not_true, Bool.false_eq_true,
      if_false]
    exact freeformMiss_requests _ _ _ _
  · intro d hd h
    obtain ⟨x, xs, rfl⟩ := List.exists_cons_of_ne_nil hd
    constructor <;> simp [Geocoder.freeform, h]

/-- Witness for C10 at concrete inputs: a cached empty dict under the derived
key `geocode::a` forces the upstream request, and a cached non-empty dict is
returned with no request. -/
theorem C10_cache_hit_requires_truthy_witness :
    (Geocoder.freeform (some [("geocode::a", [])]) (fun _ => zeroResultsResp)
      "a" none).requests = 1 ∧
    (Geocoder.freeform (some [("geocode::a", [("x", Json.null)])])
      (fun _ => zeroResultsResp) "a" none).ret = some [("x", Json.null)] ∧
    (Geocoder.freeform (some [("geocode::a", [("x", Json.null)])])
      (fun _ => zeroResultsResp) "a" none).requests = 0 := by
  refine ⟨?_, ?_, ?_⟩
  · exact (C10_cache_hit_requires_truthy [("geocode::a", [])] _ "a" none).1 rfl
  · exact ((C10_cache_hit_requires_truthy [("geocode::a", [("x", Json.null)])] _ "a" none).2
      [("x", Json.null)] (by simp) rfl).1
  · exact ((C10_cache_hit_requires_truthy [("geocode::a", [("x", Json.null)])] _ "a" none).2
      [("x", Json.null)] (by simp) rfl).2

/-- Counterexample for C5 at the spec's own example inputs: the key derived
for hint "us" differs from the key derived for hint "US" (no case
normalization), and neither matches the claimed
`"geocode::" + address + "::" + hint` format (the parts are joined with a
space, not with `"::"`). -/
theorem C5_counterexample :
    Geocoder.derivedKey "123 Main St" (some "us") ≠
      Geocoder.derivedKey "123 Main St" (some "US") ∧
    Geocoder.derivedKey "123 Main St" (some "us") ≠ "geocode::123 Main St::us" := by
  constructor <;> decide

theorem keyFilter_eq (p : String) : (p != "" && pyStrip p != "") = (pyStrip p != "") := by
  by_cases h : p = ""
  · subst h; rfl
  · have hp : (p != "") = true := by simp [bne_iff_ne, h]
    rw [hp, Bool.true_and]

/-- Modelled from the amended claim's words: the derived key is
`"geocode::"` followed by the space-separated join of the stripped non-empty
parts of `[address, hint or ""]`, with the hint's letter case preserved. -/
def amendedGeocodeKey (address : String) (hint : Option String) : String :=
  "geocode::" ++
    String.intercalate " "
      (([address, hint.getD ""].map pyStrip).filter (fun p => p != ""))

theorem filter_strip_comm (l : List String) :
    (l.filter (fun p => p != "" && pyStrip p != "")).map pyStrip =
      (l.map pyStrip).filter (fun p => p != "") := by
  have hpred : (fun p => p != "" && pyStrip p != "") = (fun p => pyStrip p != "") :=
    funext keyFilter_eq
  rw [hpred]
  induction l with
  | nil => rfl
  | cons x xs ih =>
      simp only [List.filter_cons, List.map_cons]
      by_cases h : pyStrip x = ""
      · simp only [h, bne_self_eq_false, Bool.false_eq_true, if_false, ih]
      · have hx : (pyStrip x != "") = true := by simp [bne_iff_ne, h]
        simp only [hx, if_true, List.map_cons, ih]

/-- C5 as amended: for every address and hint, the cache key `freeform`
derives equals `"geocode::"` + the space-joined stripped non-empty parts of
`[address, hint or ""]` — joined with a space rather than `"::"`, and with
the hint case-sensitive (no normalization), so `"us"` and `"US"` derive
different keys as the counterexample shows. -/
theorem C5_amended_key_format (address : String) (hint : Option String) :
    Geocoder.derivedKey address hint = amendedGeocodeKey address hint := by
  unfold Geocoder.derivedKey Geocoder.keyFor amendedGeocodeKey
  rw [filter_strip_comm]
  rfl

/-!
### places.py — `Places.text_to_location`

The body starts with `throw_if('query', query)` and `throw_if('country',
country)`, each raising `ValueError` on a falsy argument — so the `None`
default of the `country` parameter is rejected before anything else runs.
Then: cache key `"places::" + query + "::" + (country or '').upper()`, truthy
cache hit returned as-is, a text-search call, `NotFound` when the results are
falsy or the top result's `place_id` is falsy, a details call, the flattened
output cached and returned.  As in the geocoder, a blanket `except Exception`
turns every raised exception into an `ErrorDialog` plus a `None` return.
(Unlike the geocoder, `self.cache` and `self.maps` are assigned by the
constructor here, so the success path completes.)
-/

structure PlacesRes where
  ret : Option PyDict
  dialog : Option PyExc
  requests : ℕ
  cacheAfter : Option CacheStore

/-- The post-guard part of `text_to_location` (reached only with a truthy
country `c`, so the region bias is always set). -/
def Places.searchAndDetails (cache : Option CacheStore)
    (upstream : String → List (String × String) → Json)
    (query : String) (c : String) (key : String) : PlacesRes :=
  let params := [("query", query), ("region", c.toUpper)]
  let search := upstream "place/textsearch/json" params
  let results := jget search "results"
  if !optTruthy results then
    ⟨none, some (.notFound ("No places match for \"" ++ query ++ "\" ")), 1, cache⟩
  else
    match results with
    | some (.arr (top :: _)) =>
        let pid := jget top "place_id"
        if !optTruthy pid then
          ⟨none, some (.notFound "Top place had no place_id"), 1, cache⟩
        else
          let pidStr := jstr (pid.getD .null)
          let detResp := upstream "place/details/json"
            [("place_id", pidStr),
             ("fields", "formatted_address,geometry,address_component,place_id,type")]
          let details := (jget detResp "result").getD (.obj [])
          let geo := pyGetOrDflt details "geometry" (.obj [])
          let loc := pyGetOrDflt geo "location" (.obj [])
          let output : PyDict :=
            [("formatted_address", (jget details "formatted_address").getD .null),
             ("lat", (jget loc "lat").getD .null),
             ("lng", (jget loc "lng").getD .null),
             ("place_id", (jget details "place_id").getD .null),
             ("types", .str (String.intercalate "," ((jlist details "types").map jstr))),
             ("address_components", (jget details "address_components").getD (.arr []))]
          let cacheAfter := match cache with
            | some store => some (dictInsert store key output)
            | none => none
          ⟨some output, none, 2, cacheAfter⟩
    | _ => ⟨none, some (.typeError "results not subscriptable"), 1, cache⟩

/-- Translation of `Places.text_to_location`, including the two `throw_if`
guards and the blanket `except Exception` (dialog + `None` return). -/
def Places.text_to_location (cache : Option CacheStore)
    (upstream : String → List (String × String) → Json)
    (query : String) (country : Option String) : PlacesRes :=
  if query == "" then
    ⟨none, some (.valueError "Argument \"query\" cannot be empty!"), 0, cache⟩
  else
    match country with
    | none => ⟨none, some (.valueError "Argument \"country\" cannot be empty!"), 0, cache⟩
    | some c =>
        if c == "" then
          ⟨none, some (.valueError "Argument \"country\" cannot be empty!"), 0, cache⟩
        else
          let key := "places::" ++ query ++ "::" ++ c.toUpper
          let hit : Option PyDict := match cache with
            | some store => dictGet store key
            | none => none
          match hit with
          | some d =>
              if !d.isEmpty then ⟨some d, none, 0, cache⟩
              else Places.searchAndDetails cache upstream query c key
          | none => Places.searchAndDetails cache upstream query c key

/-- C7 (evaluation at the failing input): with a non-empty query and the
country hint absent, `text_to_location` does **not** proceed to derive the
cache key and issue the text-search call: `throw_if('country', country)`
raises `ValueError` first, the blanket except shows the dialog, and the call
returns `None` having made zero upstream requests — contradicting "proceeds
… rather than failing" and "fails with NotFound only when no candidate is
returned or the top candidate lacks a place identifier". -/
theorem C7_missing_hint_rejected :
    (Places.text_to_location none (fun _ _ => Json.null) "Eiffel Tower" none).ret = none ∧
    (Places.text_to_location none (fun _ _ => Json.null) "Eiffel Tower" none).requests = 0 ∧
    (Places.text_to_location none (fun _ _ => Json.null) "Eiffel Tower" none).dialog =
      some (.valueError "Argument \"country\" cannot be empty!") :=
  ⟨rfl, rfl, rfl⟩

/-!
### excel.py — `Excel.enrich_from_address`

Per row: a blank (stripped) address appends `skipped_empty` with all output
cells `None` and calls nothing; otherwise `g = geocoder.freeform(addr, hint)`
under a `try` whose `except` falls back to `places.text_to_location`, whose
own `except` yields `g = {}` with status `not_found`.  The eleven output
cells are then appended from `g.get(...)` — outside any `try`, so a `None`
value of `g` raises `AttributeError` and aborts the whole method before the
output file is written.
-/

structure XRow where
  addrCell : Option String
  cntryCell : Option String

structure RowOut where
  status : String
  cells : List (String × Json)
  geoCalls : ℕ
  placesCalls : ℕ

def enrichFields : List String :=
  ["formatted_address", "lat", "lng", "place_id", "types", "country_code",
   "country_name", "admin_level_1", "admin_level_2", "locality", "postal_code"]

def rowCells (g : PyDict) : List (String × Json) :=
  enrichFields.map (fun f => (f, (dictGet g f).getD .null))

def skippedCells : List (String × Json) := enrichFields.map (fun f => (f, Json.null))

/-- One iteration of the row loop of `enrich_from_address`.  `geo` and
`places` are the service calls; each returns `Except` so the surrounding
`try/except` fallback structure is translated faithfully, and each yields an
`Option PyDict` because the services return `None` on their swallowed
failures.  `useHint` is the `cntry and cntry in df.columns` guard. -/
def Excel.enrichRow (geo places : String → Option String → Except PyExc (Option PyDict))
    (useHint : Bool) (row : XRow) : Except PyExc RowOut :=
  let addr := pyStrip (row.addrCell.getD "")
  let hint : Option String :=
    if useHint then some (pyStrip (row.cntryCell.getD "")).toUpper else none
  if addr == "" then .ok ⟨"skipped_empty", skippedCells, 0, 0⟩
  else
    match geo addr hint with
    | .ok (some d) => .ok ⟨"ok", rowCells d, 1, 0⟩
    | .ok none => .error (.attributeError "get")
    | .error _ =>
        match places addr hint with
        | .ok (some d) => .ok ⟨"ok_places", rowCells d, 1, 1⟩
        | .ok none => .error (.attributeError "get")
        | .error _ => .ok ⟨"not_found", rowCells [], 1, 1⟩

/-- The row loop: rows are processed in order and a raised exception aborts
the remaining rows (and the final write) because no `try` encloses the
loop body's output-appending section. -/
def Excel.enrichRows (geo places : String → Option String → Except PyExc (Option PyDict))
    (useHint : Bool) : List XRow → Except PyExc (List RowOut)
  | [] => .ok []
  | r :: rs =>
      match Excel.enrichRow geo places useHint r with
      | .ok out =>
          match Excel.enrichRows geo places useHint rs with
          | .ok outs => .ok (out :: outs)
          | .error e => .error e
      | .error e => .error e

/-- `Excel.__init__` wires the loop's `geo` argument to
`Geocoder.freeform`; the blanket `except Exception` there means the call
never raises and simply returns the `ret` value (usually `None`). -/
def geoViaFreeform (cache : Option CacheStore)
    (upstream : List (String × String) → Json) :
    String → Option String → Except PyExc (Option PyDict) :=
  fun a h => .ok ((Geocoder.freeform cache upstream a h).ret)

/-- Likewise the loop's `places` argument is `Places.text_to_location`,
which also never raises. -/
def placesViaText (cache : Option CacheStore)
    (upstream : String → List (String × String) → Json) :
    String → Option String → Except PyExc (Option PyDict) :=
  fun q h => .ok ((Places.text_to_location cache upstream q h).ret)

/-- A fully successful upstream geocode response. -/
def okGeocodeResp : Json :=
  .obj [("status", .str "OK"), ("results", .arr [.obj [("place_id", .str "p1")]])]

/-- C4 (evaluation at the failing input): two rows with valid addresses and
an upstream that resolves them still abort the whole batch: `freeform`
returns `None` (its success path dies on the unassigned `self.cache` and all
its failures are swallowed), the `except` fallback never fires because
`freeform` never raises, the row is marked `ok` with `g = None`, and
`g.get('formatted_address')` raises `AttributeError` — so the second row is
never processed and nothing is written, contradicting per-row isolation and
the `ok`/`ok_places`/`not_found` statuses.  The blank-address skip conjunct
holds: a whitespace-only address yields `skipped_empty` with no service
call. -/
theorem C4_row_failure_aborts_batch :
    Excel.enrichRows (geoViaFreeform none (fun _ => okGeocodeResp))
        (placesViaText none (fun _ _ => Json.null)) false
        [⟨some "1600 Pennsylvania Ave", none⟩, ⟨some "10 Downing St", none⟩] =
      .error (.attributeError "get") ∧
    Excel.enrichRow (geoViaFreeform none (fun _ => okGeocodeResp))
        (placesViaText none (fun _ _ => Json.null)) false ⟨some "   ", none⟩ =
      .ok ⟨"skipped_empty", skippedCells, 0, 0⟩ :=
  ⟨rfl, rfl⟩

/-!
### caches.py — the serialization layer

`SQLiteCache.set` stores `json.dumps(value, ensure_ascii=False)` and
`SQLiteCache.get` returns `json.loads` of the stored text, so the durable
round trip reduces to the `dumps`/`loads` round trip of the Python `json`
module on JSON-serializable values.  The codec is modelled concretely: the
encoder below produces exactly the `json.dumps` canonical form (separators
`", "` and `": "`, escapes `\" \\ \n \r \t \b \f` and `\u00xx` for the other
control characters, raw characters above U+001F since `ensure_ascii=False`,
decimal numbers), and the decoder is a recursive-descent parser for that
form, and the round trip `loads (dumps v) = some v` is proved for every
value.
-/

/-- The decimal digit character for `k < 10`. -/
def decDigit (k : ℕ) : Char := Char.ofNat (48 + k)

/-- Decimal digit characters of `n`, most significant first. -/
def natDigits (n : ℕ) : List Char :=
  if n < 10 then [decDigit n]
  else natDigits (n / 10) ++ [decDigit (n % 10)]
termination_by n
decreasing_by exact Nat.div_lt_self (by omega) (by omega)

def digitVal (c : Char) : ℕ := c.toNat - 48

def readNat (ds : List Char) : ℕ := ds.foldl (fun a c => a * 10 + digitVal c) 0

theorem decDigit_spec : ∀ k, k < 10 → digitVal (decDigit k) = k ∧ (decDigit k).isDigit = true := by
  decide

theorem natDigits_unfold (n : ℕ) :
    natDigits n = (if 10 ≤ n then natDigits (n / 10) else []) ++ [decDigit (n % 10)] := by
  rw [natDigits]
  by_cases h : n < 10
  · rw [if_pos h, if_neg (by omega), List.nil_append, Nat.mod_eq_of_lt h]
  · rw [if_neg h, if_pos (by omega)]

theorem natDigits_ne_nil (n : ℕ) : natDigits n ≠ [] := by
  rw [natDigits_unfold]
  simp

theorem natDigits_isDigit (n : ℕ) : ∀ c ∈ natDigits n, c.isDigit = true := by
  induction n using Nat.strongRecOn with
  | _ n ih =>
      intro c hc
      rw [natDigits_unfold, List.mem_append] at hc
      rcases hc with hc | hc
      · by_cases h : 10 ≤ n
        · rw [if_pos h] at hc
          exact ih (n / 10) (Nat.div_lt_self (by omega) (by omega)) c hc
        · rw [if_neg h] at hc
          simp at hc
      · rw [List.mem_singleton] at hc
        subst hc
        exact (decDigit_spec _ (Nat.mod_lt _ (by omega))).2

theorem readNat_go (ds : List Char) :
    ∀ a : ℕ, ds.foldl (fun a c => a * 10 + digitVal c) a = a * 10 ^ ds.length + readNat ds := by
  induction ds with
  | nil => intro a; simp [readNat]
  | cons c t ih =>
      intro a
      have h1 : readNat (c :: t) = digitVal c * 10 ^ t.length + readNat t := by
        show List.foldl _ (0 * 10 + digitVal c) t = _
        rw [ih (0 * 10 + digitVal c)]
        ring
      rw [List.foldl_cons, ih (a * 10 + digitVal c), h1, List.length_cons]
      ring

theorem readNat_append (xs ys : List Char) :
    readNat (xs ++ ys) = readNat xs * 10 ^ ys.length + readNat ys := by
  show List.foldl _ 0 (xs ++ ys) = _
  rw [List.foldl_append]
  exact readNat_go ys (readNat xs)

theorem readNat_natDigits (n : ℕ) : readNat (natDigits n) = n := by
  induction n using Nat.strongRecOn with
  | _ n ih =>
      rw [natDigits_unfold]
      by_cases h : 10 ≤ n
      · rw [if_pos h, readNat_append]
        have hd : readNat [decDigit (n % 10)] = n % 10 := by
          show 0 * 10 + digitVal (decDigit (n % 10)) = n % 10
          rw [(decDigit_spec _ (Nat.mod_lt _ (by omega))).1]
          omega
        rw [hd, ih (n / 10) (Nat.div_lt_self (by omega) (by omega))]
        simp only [List.length_singleton, pow_one]
        omega
      · rw [if_neg h, List.nil_append]
        show 0 * 10 + digitVal (decDigit (n % 10)) = n
        rw [(decDigit_spec _ (Nat.mod_lt _ (by omega))).1]
        omega

theorem readNat_replicate_zero (k : ℕ) : readNat (List.replicate k '0') = 0 := by
  induction k with
  | zero => rfl
  | succ k ih =>
      have : readNat (List.replicate (k + 1) '0') = readNat (List.replicate k '0' ++ ['0']) := by
        rw [← List.replicate_succ']
      rw [this, readNat_append, ih]
      rfl

/-- Digits of `|m|` left-padded with zeros to at least `e + 1` characters, as
the decimal printing of `m × 10^(-e)` requires. -/
def intDigits (m : ℤ) (e : ℕ) : List Char :=
  List.replicate (e + 1 - (natDigits m.natAbs).length) '0' ++ natDigits m.natAbs

theorem intDigits_isDigit (m : ℤ) (e : ℕ) : ∀ c ∈ intDigits m e, c.isDigit = true := by
  intro c hc
  rw [intDigits, List.mem_append] at hc
  rcases hc with hc | hc
  · rw [List.eq_of_mem_replicate hc]
    decide
  · exact natDigits_isDigit _ c hc

theorem intDigits_len (m : ℤ) (e : ℕ) : e + 1 ≤ (intDigits m e).length := by
  rw [intDigits, List.length_append, List.length_replicate]
  omega

theorem intDigits_ne_nil (m : ℤ) (e : ℕ) : intDigits m e ≠ [] := by
  intro h
  have := intDigits_len m e
  rw [h] at this
  simp at this

theorem readNat_intDigits (m : ℤ) (e : ℕ) : readNat (intDigits m e) = m.natAbs := by
  rw [intDigits, readNat_append, readNat_replicate_zero, readNat_natDigits]
  ring

/-- The encoding of the number `m × 10^(-e)`: `json.dumps` writes an `int`
(`e = 0`) as its decimal digits and a float as digits with a decimal point
placed `e` digits from the right. -/
def encNum (m : ℤ) (e : ℕ) : List Char :=
  if e = 0 then (if m < 0 then ['-'] else []) ++ natDigits m.natAbs
  else
    let ds := intDigits m e
    (if m < 0 then ['-'] else []) ++
      (ds.take (ds.length - e) ++ '.' :: ds.drop (ds.length - e))

/-- Collect the leading digit run. -/
def takeDigits : List Char → List Char × List Char
  | [] => ([], [])
  | c :: cs =>
      if c.isDigit then
        let p := takeDigits cs
        (c :: p.1, p.2)
      else ([], c :: cs)

/-- True when the input cannot extend a digit run. -/
def noDigitHead : List Char → Bool
  | [] => true
  | c :: _ => !c.isDigit

/-- True when the input cannot extend a rendered number (every delimiter that
can follow a value in the canonical format qualifies: `,`, `]`, `}`, end). -/
def numDelimOk : List Char → Bool
  | [] => true
  | c :: _ => !c.isDigit && c != '.'

theorem numDelimOk_noDigitHead {cs : List Char} (h : numDelimOk cs = true) :
    noDigitHead cs = true := by
  cases cs with
  | nil => rfl
  | cons c t =>
      simp only [numDelimOk, Bool.and_eq_true] at h
      simp [noDigitHead, h.1]

theorem takeDigits_stop {cs : List Char} (h : noDigitHead cs = true) :
    takeDigits cs = ([], cs) := by
  cases cs with
  | nil => rfl
  | cons c t =>
      simp only [noDigitHead, Bool.not_eq_true'] at h
      simp [takeDigits, h]

theorem takeDigits_run (ds : List Char) (hds : ∀ c ∈ ds, c.isDigit = true) :
    ∀ rest : List Char, noDigitHead rest = true → takeDigits (ds ++ rest) = (ds, rest) := by
  induction ds with
  | nil => intro rest h; exact takeDigits_stop h
  | cons c t ih =>
      intro rest h
      have hc : c.isDigit = true := hds c (by simp)
      rw [List.cons_append]
      simp only [takeDigits, hc, if_true]
      rw [ih (fun x hx => hds x (by simp [hx])) rest h]

/-- The continuation after the integer digit run: a `.` starts the fraction
digits, anything else ends the number as an `int`. -/
def afterIntPart (ds : List Char) : List Char → Option ((ℤ × ℕ) × List Char)
  | '.' :: r2 =>
      let q := takeDigits r2
      if q.1.isEmpty then none
      else some (((readNat (ds ++ q.1) : ℤ), q.1.length), q.2)
  | r1 => some (((readNat ds : ℤ), 0), r1)

/-- Parse an unsigned decimal number. -/
def parseUNum (cs : List Char) : Option ((ℤ × ℕ) × List Char) :=
  let p := takeDigits cs
  if p.1.isEmpty then none else afterIntPart p.1 p.2

/-- Parse an optionally signed decimal number. -/
def parseNum : List Char → Option ((ℤ × ℕ) × List Char)
  | '-' :: cs => (parseUNum cs).map (fun p => ((-p.1.1, p.1.2), p.2))
  | cs => parseUNum cs

theorem afterIntPart_delim (ds : List Char) {rest : List Char}
    (h : numDelimOk rest = true) :
    afterIntPart ds rest = some (((readNat ds : ℤ), 0), rest) := by
  cases rest with
  | nil => rfl
  | cons c t =>
      simp only [numDelimOk, Bool.and_eq_true, bne_iff_ne] at h
      rw [afterIntPart.eq_def]
      split
      · rename_i heq
        cases heq
        exact absurd rfl h.2
      · rfl

theorem parseUNum_digits (ds : List Char) (hds : ∀ c ∈ ds, c.isDigit = true)
    (hne : ds ≠ []) {rest : List Char} (h : numDelimOk rest = true) :
    parseUNum (ds ++ rest) = some (((readNat ds : ℤ), 0), rest) := by
  rw [parseUNum, takeDigits_run ds hds rest (numDelimOk_noDigitHead h)]
  simp only [List.isEmpty_eq_true]
  rw [if_neg hne]
  exact afterIntPart_delim ds h

theorem parseUNum_frac (ds fs : List Char) (hds : ∀ c ∈ ds, c.isDigit = true)
    (hfs : ∀ c ∈ fs, c.isDigit = true) (hdne : ds ≠ []) (hfne : fs ≠ [])
    {rest : List Char} (h : numDelimOk rest = true) :
    parseUNum (ds ++ '.' :: (fs ++ rest)) =
      some (((readNat (ds ++ fs) : ℤ), fs.length), rest) := by
  rw [parseUNum, takeDigits_run ds hds ('.' :: (fs ++ rest)) (by rfl)]
  simp only [List.isEmpty_eq_true]
  rw [if_neg hdne]
  show afterIntPart ds ('.' :: (fs ++ rest)) = _
  rw [afterIntPart.eq_def]
  simp only []
  rw [takeDigits_run fs hfs rest (numDelimOk_noDigitHead h)]
  simp only [List.isEmpty_eq_true]
  rw [if_neg hfne]

theorem parseNum_not_neg {c : Char} (hc : c ≠ '-') (t : List Char) :
    parseNum (c :: t) = parseUNum (c :: t) := by
  rw [parseNum.eq_def]
  split
  · rename_i heq
    cases heq
    exact absurd rfl hc
  · rfl

theorem digit_ne_minus {c : Char} (hc : c.isDigit = true) : c ≠ '-' := by
  intro h
  subst h
  exact absurd hc (by decide)

/-- The number round trip: parsing a rendered number recovers the mantissa
and the decimal-place count whenever the remainder cannot extend it. -/
theorem parseNum_encNum (m : ℤ) (e : ℕ) {rest : List Char} (h : numDelimOk rest = true) :
    parseNum (encNum m e ++ rest) = some ((m, e), rest) := by
  by_cases he : e = 0
  · subst he
    by_cases hm : m < 0
    · have harg : encNum m 0 ++ rest = '-' :: (natDigits m.natAbs ++ rest) := by
        simp [encNum, hm]
      rw [harg]
      show (parseUNum (natDigits m.natAbs ++ rest)).map _ = _
      rw [parseUNum_digits _ (natDigits_isDigit _) (natDigits_ne_nil _) h]
      simp only [Option.map_some']
      rw [readNat_natDigits]
      have : -(m.natAbs : ℤ) = m := by omega
      rw [this]
    · obtain ⟨c, t, hct⟩ : ∃ c t, natDigits m.natAbs = c :: t := by
        cases hnd : natDigits m.natAbs with
        | nil => exact absurd hnd (natDigits_ne_nil _)
        | cons c t => exact ⟨c, t, rfl⟩
      have hcd : c.isDigit = true := natDigits_isDigit _ c (by rw [hct]; simp)
      have harg : encNum m 0 ++ rest = c :: (t ++ rest) := by
        simp [encNum, hm, hct]
      rw [harg, parseNum_not_neg (digit_ne_minus hcd)]
      have harg2 : c :: (t ++ rest) = (c :: t) ++ rest := rfl
      rw [harg2, ← hct,
        parseUNum_digits _ (natDigits_isDigit _) (natDigits_ne_nil _) h,
        readNat_natDigits]
      have : (m.natAbs : ℤ) = m := by omega
      rw [this]
  · set ds := intDigits m e with hds
    set cut := ds.length - e with hcut
    have hlen : e + 1 ≤ ds.length := intDigits_len m e
    have htake_len : (ds.take cut).length = cut := by
      rw [List.length_take]
      omega
    have hdrop_len : (ds.drop cut).length = e := by
      rw [List.length_drop]
      omega
    have htake_ne : ds.take cut ≠ [] := by
      intro hnil
      have := htake_len
      rw [hnil] at this
      simp only [List.length_nil] at this
      omega
    have hdrop_ne : ds.drop cut ≠ [] := by
      intro hnil
      have := hdrop_len
      rw [hnil] at this
      simp only [List.length_nil] at this
      omega
    have htd : ∀ c ∈ ds.take cut, c.isDigit = true :=
      fun c hc => intDigits_isDigit m e c (List.mem_of_mem_take hc)
    have hdd : ∀ c ∈ ds.drop cut, c.isDigit = true :=
      fun c hc => intDigits_isDigit m e c (List.mem_of_mem_drop hc)
    have hjoin : ds.take cut ++ ds.drop cut = ds := List.take_append_drop cut ds
    have hread : readNat (ds.take cut ++ ds.drop cut) = m.natAbs := by
      rw [hjoin, hds, readNat_intDigits]
    by_cases hm : m < 0
    · have harg : encNum m e ++ rest =
          '-' :: (ds.take cut ++ '.' :: (ds.drop cut ++ rest)) := by
        simp [encNum, he, hm, ← hds, ← hcut]
      rw [harg]
      show (parseUNum (ds.take cut ++ '.' :: (ds.drop cut ++ rest))).map _ = _
      rw [parseUNum_frac _ _ htd hdd htake_ne hdrop_ne h]
      simp only [Option.map_some']
      rw [hread, hdrop_len]
      have : -(m.natAbs : ℤ) = m := by omega
      rw [this]
    · obtain ⟨c, t, hct⟩ : ∃ c t, ds.take cut = c :: t := by
        cases htk : ds.take cut with
        | nil => exact absurd htk htake_ne
        | cons c t => exact ⟨c, t, rfl⟩
      have hcd : c.isDigit = true := htd c (by rw [hct]; simp)
      have harg : encNum m e ++ rest =
          c :: (t ++ '.' :: (ds.drop cut ++ rest)) := by
        simp [encNum, he, hm, ← hds, ← hcut, hct]
      rw [harg, parseNum_not_neg (digit_ne_minus hcd)]
      have harg2 : c :: (t ++ '.' :: (ds.drop cut ++ rest)) =
          (c :: t) ++ '.' :: (ds.drop cut ++ rest) := rfl
      rw [harg2, ← hct, parseUNum_frac _ _ htd hdd htake_ne hdrop_ne h]
      rw [hread, hdrop_len]
      have : (m.natAbs : ℤ) = m := by omega
      rw [this]

/-- The lowercase hex digit for `k < 16`, as in `json.dumps`'s `\u00xx`. -/
def hexDigitChar (k : ℕ) : Char := if k < 10 then decDigit k else Char.ofNat (87 + k)

/-- One character escaped as `json.dumps(…, ensure_ascii=False)` writes it:
`\" \\ \n \r \t \b \f`, `\u00xx` for the remaining control characters, and
everything else raw. -/
def escChar (c : Char) : List Char :=
  if c = '"' then ['\\', '"']
  else if c = '\\' then ['\\', '\\']
  else if c = '\n' then ['\\', 'n']
  else if c = '\r' then ['\\', 'r']
  else if c = '\t' then ['\\', 't']
  else if c.toNat = 8 then ['\\', 'b']
  else if c.toNat = 12 then ['\\', 'f']
  else if c.toNat < 32 then
    let hi := hexDigitChar (c.toNat / 16)
    let lo := hexDigitChar (c.toNat % 16)
    '\\' :: 'u' :: '0' :: '0' :: hi :: [lo]
  else [c]

/-- A string body escaped character by character. -/
def escBody : List Char → List Char
  | [] => []
  | c :: cs => escChar c ++ escBody cs

def hexVal (c : Char) : ℕ := if c.toNat ≤ 57 then c.toNat - 48 else c.toNat - 87

/-- The inverse of a single-character escape. -/
def unescChar (c : Char) : Option Char :=
  if c = '"' then some '"'
  else if c = '\\' then some '\\'
  else if c = '/' then some '/'
  else if c = 'n' then some '\n'
  else if c = 'r' then some '\r'
  else if c = 't' then some '\t'
  else if c = 'b' then some (Char.ofNat 8)
  else if c = 'f' then some (Char.ofNat 12)
  else none

/-- Parse a string body up to its closing quote, undoing the escapes. -/
def strBody : List Char → Option (List Char × List Char)
  | [] => none
  | '"' :: rest => some ([], rest)
  | '\\' :: 'u' :: h1 :: h2 :: h3 :: h4 :: rest =>
      (strBody rest).map (fun p =>
        (Char.ofNat (((hexVal h1 * 16 + hexVal h2) * 16 + hexVal h3) * 16 + hexVal h4) :: p.1,
         p.2))
  | '\\' :: e :: rest =>
      match unescChar e with
      | some c => (strBody rest).map (fun p => (c :: p.1, p.2))
      | none => none
  | c :: rest => (strBody rest).map (fun p => (c :: p.1, p.2))

theorem hexVal_hexDigitChar : ∀ k, k < 16 → hexVal (hexDigitChar k) = k := by decide

theorem strBody_plain {c : Char} (h1 : c ≠ '"') (h2 : c ≠ '\\') (cs : List Char) :
    strBody (c :: cs) = (strBody cs).map (fun p => (c :: p.1, p.2)) := by
  rw [strBody.eq_def]
  split
  · rename_i heq
    simp at heq
  · rename_i heq
    injection heq with heq1 _
    exact absurd heq1 h1
  · rename_i heq
    injection heq with heq1 _
    exact absurd heq1 h2
  · rename_i heq
    injection heq with heq1 _
    exact absurd heq1 h2
  · rename_i heq
    injection heq with heq1 heq2
    subst heq1
    subst heq2
    rfl

theorem strBody_escChar (c : Char) (cs : List Char) :
    strBody (escChar c ++ cs) = (strBody cs).map (fun p => (c :: p.1, p.2)) := by
  rw [escChar]
  by_cases hq : c = '"'
  · subst hq; rfl
  · rw [if_neg hq]
    by_cases hb : c = '\\'
    · subst hb; rfl
    · rw [if_neg hb]
      by_cases hn : c = '\n'
      · subst hn; rfl
      · rw [if_neg hn]
        by_cases hr : c = '\r'
        · subst hr; rfl
        · rw [if_neg hr]
          by_cases ht : c = '\t'
          · subst ht; rfl
          · rw [if_neg ht]
            by_cases h8 : c.toNat = 8
            · rw [if_pos h8]
              show (strBody cs).map _ = _
              have : Char.ofNat 8 = c := by
                rw [← h8, Char.ofNat_toNat]
              rw [this]
            · rw [if_neg h8]
              by_cases h12 : c.toNat = 12
              · rw [if_pos h12]
                show (strBody cs).map _ = _
                have : Char.ofNat 12 = c := by
                  rw [← h12, Char.ofNat_toNat]
                rw [this]
              · rw [if_neg h12]
                by_cases h32 : c.toNat < 32
                · rw [if_pos h32]
                  show (strBody
                    ('\\' :: 'u' :: '0' :: '0' :: hexDigitChar (c.toNat / 16) ::
                      hexDigitChar (c.toNat % 16) :: cs)) = _
                  rw [strBody]
                  have hv : ((hexVal '0' * 16 + hexVal '0') * 16 +
                      hexVal (hexDigitChar (c.toNat / 16))) * 16 +
                      hexVal (hexDigitChar (c.toNat % 16)) = c.toNat := by
                    rw [hexVal_hexDigitChar _ (by omega), hexVal_hexDigitChar _ (by omega)]
                    have h0 : hexVal '0' = 0 := by decide
                    rw [h0]
                    omega
                  rw [hv, Char.ofNat_toNat]
                · rw [if_neg h32]
                  show strBody (c :: cs) = _
                  exact strBody_plain hq hb cs

/-- The string round trip: parsing an escaped body recovers the characters
exactly, leaving the remainder after the closing quote. -/
theorem strBody_escBody (cs : List Char) :
    ∀ rest : List Char, strBody (escBody cs ++ '"' :: rest) = some (cs, rest) := by
  induction cs with
  | nil => intro rest; rfl
  | cons c t ih =>
      intro rest
      show strBody (escChar c ++ escBody t ++ '"' :: rest) = _
      rw [List.append_assoc, strBody_escChar, ih]
      rfl

mutual

/-- The characters `json.dumps(v, ensure_ascii=False)` produces: default
separators `", "` and `": "`, `"null"`/`"true"`/`"false"` literals, decimal
numbers, escaped strings. -/
def encVal : Json → List Char
  | .null => "null".data
  | .bool true => "true".data
  | .bool false => "false".data
  | .num m e => encNum m e
  | .str s => '"' :: (escBody s.data ++ ['"'])
  | .arr [] => ['[', ']']
  | .arr (x :: xs) => '[' :: (encVal x ++ (encItemsTail xs ++ [']']))
  | .obj [] => ['{', '}']
  | .obj (kv :: kvs) => '{' :: (encEntry kv ++ (encFieldsTail kvs ++ ['}']))

/-- The remaining array items, each preceded by `", "`. -/
def encItemsTail : List Json → List Char
  | x :: xs => ',' :: ' ' :: (encVal x ++ encItemsTail xs)
  | [] => []

/-- One object member: quoted key, `": "`, value. -/
def encEntry : String × Json → List Char
  | (k, v) => '"' :: (escBody k.data ++ ('"' :: ':' :: ' ' :: encVal v))

/-- The remaining object members, each preceded by `", "`. -/
def encFieldsTail : List (String × Json) → List Char
  | [] => []
  | kv :: kvs => ',' :: ' ' :: (encEntry kv ++ encFieldsTail kvs)

end

mutual

/-- The fuel each parsing function needs on the corresponding rendering. -/
def szV : Json → ℕ
  | .null => 1
  | .bool _ => 1
  | .num _ _ => 1
  | .str _ => 1
  | .arr [] => 1
  | .arr (x :: xs) => 1 + szV x + szItems xs
  | .obj [] => 1
  | .obj (kv :: kvs) => 1 + szEntry kv + szFields kvs

def szItems : List Json → ℕ
  | [] => 1
  | x :: xs => 1 + szV x + szItems xs

def szEntry : String × Json → ℕ
  | (_, v) => 1 + szV v

def szFields : List (String × Json) → ℕ
  | [] => 1
  | kv :: kvs => 1 + szEntry kv + szFields kvs

end

mutual

/-- Recursive-descent parser for the canonical `json.dumps` form, structural
on a fuel count (every recursive call strictly decreases it). -/
def parseVal : ℕ → List Char → Option (Json × List Char)
  | 0, _ => none
  | _ + 1, 'n' :: 'u' :: 'l' :: 'l' :: r => some (.null, r)
  | _ + 1, 't' :: 'r' :: 'u' :: 'e' :: r => some (.bool true, r)
  | _ + 1, 'f' :: 'a' :: 'l' :: 's' :: 'e' :: r => some (.bool false, r)
  | _ + 1, '"' :: r => (strBody r).map (fun p => (Json.str ⟨p.1⟩, p.2))
  | fuel + 1, '[' :: r =>
      match r with
      | ']' :: r2 => some (.arr [], r2)
      | _ =>
          match parseVal fuel r with
          | some (v, r2) => (parseItems fuel r2).map (fun p => (Json.arr (v :: p.1), p.2))
          | none => none
  | fuel + 1, '{' :: r =>
      match r with
      | '}' :: r2 => some (.obj [], r2)
      | _ =>
          match parseEntry fuel r with
          | some (kv, r2) => (parseFields fuel r2).map (fun p => (Json.obj (kv :: p.1), p.2))
          | none => none
  | _ + 1, [] => none
  | _ + 1, c :: t =>
      if (c == '-') || c.isDigit then
        (parseNum (c :: t)).map (fun p => (Json.num p.1.1 p.1.2, p.2))
      else none

/-- After one array item: `]` closes, `", "` introduces the next item. -/
def parseItems : ℕ → List Char → Option (List Json × List Char)
  | _, ']' :: r => some ([], r)
  | fuel + 1, ',' :: ' ' :: r =>
      match parseVal fuel r with
      | some (v, r2) => (parseItems fuel r2).map (fun p => (v :: p.1, p.2))
      | none => none
  | _, _ => none

/-- One object member: quoted key, `": "`, value. -/
def parseEntry : ℕ → List Char → Option ((String × Json) × List Char)
  | 0, _ => none
  | fuel + 1, '"' :: r =>
      match strBody r with
      | some (k, r2) =>
          match r2 with
          | ':' :: ' ' :: r3 => (parseVal fuel r3).map (fun p => ((⟨k⟩, p.1), p.2))
          | _ => none
      | none => none
  | _ + 1, _ => none

/-- After one object member: `}` closes, `", "` introduces the next. -/
def parseFields : ℕ → List Char → Option (List (String × Json) × List Char)
  | _, '}' :: r => some ([], r)
  | fuel + 1, ',' :: ' ' :: r =>
      match parseEntry fuel r with
      | some (kv, r2) => (parseFields fuel r2).map (fun p => (kv :: p.1, p.2))
      | none => none
  | _, _ => none

end

theorem digit_notLit {c : Char} (h : c.isDigit = true) (d : Char)
    (hd : d ∈ [']', '}', 'n', 't', 'f', '"', '[', '{']) : c ≠ d := by
  rintro rfl
  fin_cases hd <;> exact absurd h (by decide)

theorem takeCut_cons (m : ℤ) (e : ℕ) :
    ∃ c t, (intDigits m e).take ((intDigits m e).length - e) = c :: t ∧ c.isDigit = true := by
  cases htk : (intDigits m e).take ((intDigits m e).length - e) with
  | nil =>
      have hlen := intDigits_len m e
      have hl : ((intDigits m e).take ((intDigits m e).length - e)).length =
          (intDigits m e).length - e := by
        rw [List.length_take]
        omega
      rw [htk] at hl
      simp only [List.length_nil] at hl
      omega
  | cons c t =>
      exact ⟨c, t, rfl,
        intDigits_isDigit m e c (List.mem_of_mem_take (by rw [htk]; simp))⟩

theorem encNum_head (m : ℤ) (e : ℕ) :
    ∃ c t, encNum m e = c :: t ∧ (c = '-' ∨ c.isDigit = true) := by
  by_cases hm : m < 0
  · by_cases he : e = 0
    · refine ⟨'-', natDigits m.natAbs, ?_, Or.inl rfl⟩
      simp [encNum, hm, he]
    · refine ⟨'-',
        (intDigits m e).take ((intDigits m e).length - e) ++
          '.' :: (intDigits m e).drop ((intDigits m e).length - e), ?_, Or.inl rfl⟩
      simp [encNum, hm, he]
  · by_cases he : e = 0
    · obtain ⟨c, t, hct⟩ : ∃ c t, natDigits m.natAbs = c :: t := by
        cases hnd : natDigits m.natAbs with
        | nil => exact absurd hnd (natDigits_ne_nil _)
        | cons c t => exact ⟨c, t, rfl⟩
      refine ⟨c, t, ?_, Or.inr (natDigits_isDigit _ c (by rw [hct]; simp))⟩
      simp [encNum, hm, he, hct]
    · obtain ⟨c, t, hct, hcd⟩ := takeCut_cons m e
      refine ⟨c, t ++ '.' :: (intDigits m e).drop ((intDigits m e).length - e), ?_,
        Or.inr hcd⟩
      simp [encNum, hm, he, hct]

theorem encVal_head (v : Json) : ∃ c t, c ≠ ']' ∧ c ≠ '}' ∧ encVal v = c :: t := by
  cases v with
  | null => exact ⟨'n', _, by decide, by decide, rfl⟩
  | bool b =>
      cases b with
      | true => exact ⟨'t', _, by decide, by decide, rfl⟩
      | false => exact ⟨'f', _, by decide, by decide, rfl⟩
  | str s => exact ⟨'"', _, by decide, by decide, rfl⟩
  | arr es =>
      cases es with
      | nil => exact ⟨'[', _, by decide, by decide, rfl⟩
      | cons x xs => exact ⟨'[', _, by decide, by decide, rfl⟩
  | obj kvs =>
      cases kvs with
      | nil => exact ⟨'{', _, by decide, by decide, rfl⟩
      | cons kv kvs => exact ⟨'{', _, by decide, by decide, rfl⟩
  | num m e =>
      obtain ⟨c, t, hct, hc⟩ := encNum_head m e
      refine ⟨c, t, ?_, ?_, hct⟩
      · rcases hc with rfl | hd
        · decide
        · exact digit_notLit hd ']' (by simp)
      · rcases hc with rfl | hd
        · decide
        · exact digit_notLit hd '}' (by simp)

theorem parseVal_null (f : ℕ) (r : List Char) :
    parseVal (f + 1) ('n' :: 'u' :: 'l' :: 'l' :: r) = some (.null, r) := rfl

theorem parseVal_true (f : ℕ) (r : List Char) :
    parseVal (f + 1) ('t' :: 'r' :: 'u' :: 'e' :: r) = some (.bool true, r) := rfl

theorem parseVal_false (f : ℕ) (r : List Char) :
    parseVal (f + 1) ('f' :: 'a' :: 'l' :: 's' :: 'e' :: r) = some (.bool false, r) := rfl

theorem parseVal_str (f : ℕ) (r : List Char) :
    parseVal (f + 1) ('"' :: r) = (strBody r).map (fun p => (Json.str ⟨p.1⟩, p.2)) := rfl

theorem parseVal_arr_nil (f : ℕ) (r : List Char) :
    parseVal (f + 1) ('[' :: ']' :: r) = some (.arr [], r) := rfl

theorem parseVal_obj_nil (f : ℕ) (r : List Char) :
    parseVal (f + 1) ('{' :: '}' :: r) = some (.obj [], r) := rfl

theorem parseVal_arr_step (f : ℕ) {c : Char} (t : List Char) (hc : c ≠ ']') :
    parseVal (f + 1) ('[' :: c :: t) =
      (match parseVal f (c :: t) with
       | some (v, r2) => (parseItems f r2).map (fun p => (Json.arr (v :: p.1), p.2))
       | none => none) := by
  show (match c :: t with
       | ']' :: r2 => some (Json.arr [], r2)
       | _ =>
          match parseVal f (c :: t) with
          | some (v, r2) =>
              (parseItems f r2).map
                (fun p : List Json × List Char => (Json.arr (v :: p.1), p.2))
          | none => none) = _
  split
  · rename_i heq
    injection heq with e1 _
    exact absurd e1 hc
  · rfl

theorem parseVal_obj_step (f : ℕ) {c : Char} (t : List Char) (hc : c ≠ '}') :
    parseVal (f + 1) ('{' :: c :: t) =
      (match parseEntry f (c :: t) with
       | some (kv, r2) => (parseFields f r2).map (fun p => (Json.obj (kv :: p.1), p.2))
       | none => none) := by
  show (match c :: t with
       | '}' :: r2 => some (Json.obj [], r2)
       | _ =>
          match parseEntry f (c :: t) with
          | some (kv, r2) =>
              (parseFields f r2).map
                (fun p : List (String × Json) × List Char => (Json.obj (kv :: p.1), p.2))
          | none => none) = _
  split
  · rename_i heq
    injection heq with e1 _
    exact absurd e1 hc
  · rfl

set_option maxHeartbeats 1000000 in
theorem parseVal_num_step (f : ℕ) {c : Char} (t : List Char)
    (h1 : c ≠ 'n') (h2 : c ≠ 't') (h3 : c ≠ 'f') (h4 : c ≠ '"')
    (h5 : c ≠ '[') (h6 : c ≠ '{') :
    parseVal (f + 1) (c :: t) =
      (if (c == '-') || c.isDigit then
        (parseNum (c :: t)).map (fun p => (Json.num p.1.1 p.1.2, p.2))
      else none) := by
  rw [parseVal.eq_def]
  split
  · rename_i heq
    exact (Nat.succ_ne_zero f heq).elim
  · rename_i heq
    injection heq with e1 _
    exact absurd e1 h1
  · rename_i heq
    injection heq with e1 _
    exact absurd e1 h2
  · rename_i heq
    injection heq with e1 _
    exact absurd e1 h3
  · rename_i heq
    injection heq with e1 _
    exact absurd e1 h4
  · rename_i heq
    injection heq with e1 _
    exact absurd e1 h5
  · rename_i heq
    injection heq with e1 _
    exact absurd e1 h6
  · rename_i heq
    simp at heq
  · rename_i heq
    injection heq with e1 e2
    subst e1
    subst e2
    rfl

theorem parseItems_close (f : ℕ) (r : List Char) :
    parseItems f (']' :: r) = some ([], r) := by
  cases f <;> rfl

theorem parseItems_step (f : ℕ) (r : List Char) :
    parseItems (f + 1) (',' :: ' ' :: r) =
      (match parseVal f r with
       | some (v, r2) => (parseItems f r2).map (fun p => (v :: p.1, p.2))
       | none => none) := rfl

theorem parseFields_close (f : ℕ) (r : List Char) :
    parseFields f ('}' :: r) = some ([], r) := by
  cases f <;> rfl

theorem parseFields_step (f : ℕ) (r : List Char) :
    parseFields (f + 1) (',' :: ' ' :: r) =
      (match parseEntry f r with
       | some (kv, r2) => (parseFields f r2).map (fun p => (kv :: p.1, p.2))
       | none => none) := rfl

theorem parseEntry_step (f : ℕ) (r : List Char) :
    parseEntry (f + 1) ('"' :: r) =
      (match strBody r with
       | some (k, r2) =>
          match r2 with
          | ':' :: ' ' :: r3 => (parseVal f r3).map (fun p => ((⟨k⟩, p.1), p.2))
          | _ => none
       | none => none) := rfl

theorem itemsDelim (xs : List Json) (rest : List Char) :
    numDelimOk (encItemsTail xs ++ ']' :: rest) = true := by
  cases xs <;> rfl

theorem fieldsDelim (kvs : List (String × Json)) (rest : List Char) :
    numDelimOk (encFieldsTail kvs ++ '}' :: rest) = true := by
  cases kvs <;> rfl

mutual

theorem rtVal : ∀ (v : Json) (f : ℕ) (rest : List Char),
    szV v ≤ f → numDelimOk rest = true →
    parseVal f (encVal v ++ rest) = some (v, rest)
  | .null, f, rest, hf, _ => by
      simp only [szV] at hf
      obtain ⟨f', rfl⟩ : ∃ f', f = f' + 1 := ⟨f - 1, by omega⟩
      exact parseVal_null f' rest
  | .bool true, f, rest, hf, _ => by
      simp only [szV] at hf
      obtain ⟨f', rfl⟩ : ∃ f', f = f' + 1 := ⟨f - 1, by omega⟩
      exact parseVal_true f' rest
  | .bool false, f, rest, hf, _ => by
      simp only [szV] at hf
      obtain ⟨f', rfl⟩ : ∃ f', f = f' + 1 := ⟨f - 1, by omega⟩
      exact parseVal_false f' rest
  | .str s, f, rest, hf, _ => by
      simp only [szV] at hf
      obtain ⟨f', rfl⟩ : ∃ f', f = f' + 1 := ⟨f - 1, by omega⟩
      have harg : encVal (.str s) ++ rest = '"' :: (escBody s.data ++ '"' :: rest) := by
        show ('"' :: (escBody s.data ++ ['"'])) ++ rest = _
        rw [List.cons_append, List.append_assoc]
        rfl
      rw [harg, parseVal_str, strBody_escBody]
      rfl
  | .num m e, f, rest, hf, hrest => by
      simp only [szV] at hf
      obtain ⟨f', rfl⟩ : ∃ f', f = f' + 1 := ⟨f - 1, by omega⟩
      obtain ⟨c, t, hct, hc⟩ := encNum_head m e
      have hn : c ≠ 'n' := by
        rcases hc with rfl | hd
        · decide
        · exact digit_notLit hd 'n' (by simp)
      have ht : c ≠ 't' := by
        rcases hc with rfl | hd
        · decide
        · exact digit_notLit hd 't' (by simp)
      have hfc : c ≠ 'f' := by
        rcases hc with rfl | hd
        · decide
        · exact digit_notLit hd 'f' (by simp)
      have hq : c ≠ '"' := by
        rcases hc with rfl | hd
        · decide
        · exact digit_notLit hd '"' (by simp)
      have hb : c ≠ '[' := by
        rcases hc with rfl | hd
        · decide
        · exact digit_notLit hd '[' (by simp)
      have hbc : c ≠ '{' := by
        rcases hc with rfl | hd
        · decide
        · exact digit_notLit hd '{' (by simp)
      have harg : encNum m e ++ rest = c :: (t ++ rest) := by
        rw [hct]
        rfl
      show parseVal (f' + 1) (encNum m e ++ rest) = _
      rw [harg, parseVal_num_step f' (t ++ rest) hn ht hfc hq hb hbc]
      have hcond : ((c == '-') || c.isDigit) = true := by
        rcases hc with rfl | hd
        · rfl
        · simp [hd]
      rw [if_pos hcond, ← harg, parseNum_encNum m e hrest]
      rfl
  | .arr [], f, rest, hf, _ => by
      simp only [szV] at hf
      obtain ⟨f', rfl⟩ : ∃ f', f = f' + 1 := ⟨f - 1, by omega⟩
      exact parseVal_arr_nil f' rest
  | .arr (x :: xs), f, rest, hf, _ => by
      simp only [szV] at hf
      obtain ⟨f', rfl⟩ : ∃ f', f = f' + 1 := ⟨f - 1, by omega⟩
      have hx : szV x ≤ f' := by omega
      have hxs : szItems xs ≤ f' := by omega
      obtain ⟨c, t, hc1, _, hct⟩ := encVal_head x
      have harg : encVal (.arr (x :: xs)) ++ rest =
          '[' :: (c :: (t ++ (encItemsTail xs ++ ']' :: rest))) := by
        show ('[' :: (encVal x ++ (encItemsTail xs ++ [']']))) ++ rest = _
        rw [hct]
        simp [List.append_assoc]
      rw [harg, parseVal_arr_step f' _ hc1]
      have hv : parseVal f' (c :: (t ++ (encItemsTail xs ++ ']' :: rest))) =
          some (x, encItemsTail xs ++ ']' :: rest) := by
        have hrw : c :: (t ++ (encItemsTail xs ++ ']' :: rest)) =
            encVal x ++ (encItemsTail xs ++ ']' :: rest) := by
          rw [hct]
          rfl
        rw [hrw]
        exact rtVal x f' (encItemsTail xs ++ ']' :: rest) hx (itemsDelim xs rest)
      rw [hv]
      show (parseItems f' (encItemsTail xs ++ ']' :: rest)).map _ = _
      rw [rtItems xs f' rest hxs]
      rfl
  | .obj [], f, rest, hf, _ => by
      simp only [szV] at hf
      obtain ⟨f', rfl⟩ : ∃ f', f = f' + 1 := ⟨f - 1, by omega⟩
      exact parseVal_obj_nil f' rest
  | .obj ((k, v) :: kvs), f, rest, hf, _ => by
      simp only [szV, szEntry] at hf
      obtain ⟨f', rfl⟩ : ∃ f', f = f' + 1 := ⟨f - 1, by omega⟩
      have he : szEntry (k, v) ≤ f' := by simp only [szEntry]; omega
      have hkvs : szFields kvs ≤ f' := by omega
      have harg : encVal (.obj ((k, v) :: kvs)) ++ rest =
          '{' :: ('"' :: ((escBody k.data ++ ('"' :: ':' :: ' ' :: encVal v)) ++
            (encFieldsTail kvs ++ '}' :: rest))) := by
        show ('{' :: (encEntry (k, v) ++ (encFieldsTail kvs ++ ['}']))) ++ rest = _
        show '{' :: ((encEntry (k, v) ++ (encFieldsTail kvs ++ ['}'])) ++ rest) = _
        rw [show encEntry (k, v) =
          '"' :: (escBody k.data ++ ('"' :: ':' :: ' ' :: encVal v)) from rfl]
        simp [List.append_assoc]
      rw [harg, parseVal_obj_step f' _ (by decide)]
      have hent : parseEntry f'
          ('"' :: ((escBody k.data ++ ('"' :: ':' :: ' ' :: encVal v)) ++
            (encFieldsTail kvs ++ '}' :: rest))) =
          some ((k, v), encFieldsTail kvs ++ '}' :: rest) := by
        have hrw : '"' :: ((escBody k.data ++ ('"' :: ':' :: ' ' :: encVal v)) ++
            (encFieldsTail kvs ++ '}' :: rest)) =
            encEntry (k, v) ++ (encFieldsTail kvs ++ '}' :: rest) := by
          show _ = ('"' :: (escBody k.data ++ ('"' :: ':' :: ' ' :: encVal v))) ++ _
          rw [List.cons_append]
        rw [hrw]
        exact rtEntry (k, v) f' (encFieldsTail kvs ++ '}' :: rest) he
          (fieldsDelim kvs rest)
      rw [hent]
      show (parseFields f' (encFieldsTail kvs ++ '}' :: rest)).map _ = _
      rw [rtFields kvs f' rest hkvs]
      rfl
termination_by v _ _ _ _ => szV v
decreasing_by all_goals (simp only [szV, szItems, szEntry, szFields]; omega)

theorem rtItems : ∀ (xs : List Json) (f : ℕ) (rest : List Char),
    szItems xs ≤ f →
    parseItems f (encItemsTail xs ++ ']' :: rest) = some (xs, rest)
  | [], f, rest, _ => parseItems_close f rest
  | x :: xs, f, rest, hf => by
      simp only [szItems] at hf
      obtain ⟨f', rfl⟩ : ∃ f', f = f' + 1 := ⟨f - 1, by omega⟩
      have hx : szV x ≤ f' := by omega
      have hxs : szItems xs ≤ f' := by omega
      have harg : encItemsTail (x :: xs) ++ ']' :: rest =
          ',' :: ' ' :: (encVal x ++ (encItemsTail xs ++ ']' :: rest)) := by
        show (',' :: ' ' :: (encVal x ++ encItemsTail xs)) ++ ']' :: rest = _
        simp [List.append_assoc]
      rw [harg, parseItems_step,
        rtVal x f' (encItemsTail xs ++ ']' :: rest) hx (itemsDelim xs rest)]
      show (parseItems f' (encItemsTail xs ++ ']' :: rest)).map _ = _
      rw [rtItems xs f' rest hxs]
      rfl
termination_by xs _ _ _ => szItems xs
decreasing_by all_goals (simp only [szV, szItems, szEntry, szFields]; omega)

theorem rtEntry : ∀ (kv : String × Json) (f : ℕ) (rest : List Char),
    szEntry kv ≤ f → numDelimOk rest = true →
    parseEntry f (encEntry kv ++ rest) = some (kv, rest)
  | (k, v), f, rest, hf, hrest => by
      simp only [szEntry] at hf
      obtain ⟨f', rfl⟩ : ∃ f', f = f' + 1 := ⟨f - 1, by omega⟩
      have hv : szV v ≤ f' := by omega
      have harg : encEntry (k, v) ++ rest =
          '"' :: (escBody k.data ++ '"' :: (':' :: ' ' :: (encVal v ++ rest))) := by
        show ('"' :: (escBody k.data ++ ('"' :: ':' :: ' ' :: encVal v))) ++ rest = _
        rw [List.cons_append, List.append_assoc]
        rfl
      rw [harg, parseEntry_step, strBody_escBody k.data (':' :: ' ' :: (encVal v ++ rest))]
      show (parseVal f' (encVal v ++ rest)).map _ = _
      rw [rtVal v f' rest hv hrest]
      rfl
termination_by kv _ _ _ _ => szEntry kv
decreasing_by all_goals (simp only [szV, szItems, szEntry, szFields]; omega)

theorem rtFields : ∀ (kvs : List (String × Json)) (f : ℕ) (rest : List Char),
    szFields kvs ≤ f →
    parseFields f (encFieldsTail kvs ++ '}' :: rest) = some (kvs, rest)
  | [], f, rest, _ => parseFields_close f rest
  | kv :: kvs, f, rest, hf => by
      simp only [szFields] at hf
      obtain ⟨f', rfl⟩ : ∃ f', f = f' + 1 := ⟨f - 1, by omega⟩
      have he : szEntry kv ≤ f' := by omega
      have hkvs : szFields kvs ≤ f' := by omega
      have harg : encFieldsTail (kv :: kvs) ++ '}' :: rest =
          ',' :: ' ' :: (encEntry kv ++ (encFieldsTail kvs ++ '}' :: rest)) := by
        show (',' :: ' ' :: (encEntry kv ++ encFieldsTail kvs)) ++ '}' :: rest = _
        simp [List.append_assoc]
      rw [harg, parseFields_step,
        rtEntry kv f' (encFieldsTail kvs ++ '}' :: rest) he (fieldsDelim kvs rest)]
      show (parseFields f' (encFieldsTail kvs ++ '}' :: rest)).map _ = _
      rw [rtFields kvs f' rest hkvs]
      rfl
termination_by kvs _ _ _ => szFields kvs
decreasing_by all_goals (simp only [szV, szItems, szEntry, szFields]; omega)

end

mutual

theorem szV_le_len : ∀ v : Json, szV v ≤ (encVal v).length
  | .null => by simp [szV, encVal]
  | .bool true => by simp [szV, encVal]
  | .bool false => by simp [szV, encVal]
  | .num m e => by
      obtain ⟨c, t, hct, _⟩ := encNum_head m e
      show szV (.num m e) ≤ (encNum m e).length
      rw [hct]
      simp [szV]
  | .str s => by simp [szV, encVal]
  | .arr [] => by simp [szV, encVal]
  | .arr (x :: xs) => by
      have h1 := szV_le_len x
      have h2 := szItems_le_len xs
      simp only [szV, encVal, List.length_cons, List.length_append, List.length_singleton]
      omega
  | .obj [] => by simp [szV, encVal]
  | .obj (kv :: kvs) => by
      have h1 := szEntry_le_len kv
      have h2 := szFields_le_len kvs
      simp only [szV, encVal, List.length_cons, List.length_append, List.length_singleton]
      omega
termination_by v => szV v
decreasing_by all_goals (simp only [szV, szItems, szEntry, szFields]; omega)

theorem szItems_le_len : ∀ xs : List Json, szItems xs ≤ (encItemsTail xs).length + 1
  | [] => by simp [szItems, encItemsTail]
  | x :: xs => by
      have h1 := szV_le_len x
      have h2 := szItems_le_len xs
      simp only [szItems, encItemsTail, List.length_cons, List.length_append]
      omega
termination_by xs => szItems xs
decreasing_by all_goals (simp only [szV, szItems, szEntry, szFields]; omega)

theorem szEntry_le_len : ∀ kv : String × Json, szEntry kv ≤ (encEntry kv).length
  | (k, v) => by
      have h1 := szV_le_len v
      simp only [szEntry, encEntry, List.length_cons, List.length_append]
      omega
termination_by kv => szEntry kv
decreasing_by all_goals (simp only [szV, szItems, szEntry, szFields]; omega)

theorem szFields_le_len : ∀ kvs : List (String × Json),
    szFields kvs ≤ (encFieldsTail kvs).length + 1
  | [] => by simp [szFields, encFieldsTail]
  | kv :: kvs => by
      have h1 := szEntry_le_len kv
      have h2 := szFields_le_len kvs
      simp only [szFields, encFieldsTail, List.length_cons, List.length_append]
      omega
termination_by kvs => szFields kvs
decreasing_by all_goals (simp only [szV, szItems, szEntry, szFields]; omega)

end

/-- The model of `json.dumps(v, ensure_ascii=False)`. -/
def dumps (v : Json) : String := ⟨encVal v⟩

/-- The model of `json.loads`: parse one value and require the input to be
fully consumed. -/
def loads (s : String) : Option Json :=
  match parseVal (s.data.length + 1) s.data with
  | some (v, []) => some v
  | _ => none

/-- The `json` round trip underlying the durable cache: decoding an encoded
value returns it unchanged. -/
theorem loads_dumps (v : Json) : loads (dumps v) = some v := by
  have hlen : szV v ≤ (encVal v).length + 1 := le_trans (szV_le_len v) (by omega)
  have h := rtVal v ((encVal v).length + 1) [] hlen rfl
  rw [List.append_nil] at h
  show (match parseVal ((encVal v).length + 1) (encVal v) with
    | some (v, []) => some v
    | _ => none) = some v
  rw [h]

/-!
### caches.py — the two backends

`InMemoryCache` holds a plain dict.  `SQLiteCache.__init__(path)` connects to
the database file at `path` and runs `CREATE TABLE IF NOT EXISTS kv (k TEXT
PRIMARY KEY, v TEXT NOT NULL)` — creating an empty table only when the file
holds none — and commits.  `set` executes `INSERT OR REPLACE` with the
JSON-encoded payload and commits (so the file reflects the table);
`get` returns `json.loads` of the stored text, or `None` when no row
matches.  The on-disk state is modelled as a map from paths to tables.
-/

/-- The `kv` table: key column to serialized-value column. -/
abbrev KvTable := List (String × String)

/-- The durable store: what each database path holds, if anything. -/
abbrev FileSys := String → Option KvTable

/-- Translation of `SQLiteCache.__init__`: open the table at `path` (empty
when absent), create-if-not-exists, commit. -/
def SQLiteCache.connect (fs : FileSys) (path : String) : KvTable × FileSys :=
  let t := (fs path).getD []
  (t, fun p => if p = path then some t else fs p)

/-- Translation of `SQLiteCache.get`. -/
def SQLiteCache.get (t : KvTable) (k : String) : Option Json :=
  match dictGet t k with
  | some payload => loads payload
  | none => none

/-- Translation of `SQLiteCache.set`: upsert the `dumps` payload and commit
to the file at `path`. -/
def SQLiteCache.set (t : KvTable) (path : String) (fs : FileSys) (k : String)
    (v : PyDict) : KvTable × FileSys :=
  let t2 := dictInsert t k (dumps (.obj v))
  (t2, fun p => if p = path then some t2 else fs p)

/-- Translation of `InMemoryCache.get`. -/
def InMemoryCache.get (store : CacheStore) (k : String) : Option PyDict :=
  dictGet store k

/-- Translation of `InMemoryCache.set`. -/
def InMemoryCache.set (store : CacheStore) (k : String) (v : PyDict) : CacheStore :=
  dictInsert store k v

/-- C6: cache round trip.  For every key and every JSON-serializable dict
value, `set` then `get` returns a deep-equal value: on the in-memory backend,
on the SQLite backend (through the `dumps`/`loads` serialization), and on the
SQLite backend after the cache object is reconstructed against the same
storage path (the committed file is reopened and `CREATE TABLE IF NOT
EXISTS` preserves the rows). -/
theorem C6_cache_round_trip (k : String) (v : PyDict) (store : CacheStore)
    (t : KvTable) (path : String) (fs : FileSys) :
    InMemoryCache.get (InMemoryCache.set store k v) k = some v ∧
    SQLiteCache.get (SQLiteCache.set t path fs k v).1 k = some (.obj v) ∧
    SQLiteCache.get
      (SQLiteCache.connect
        (SQLiteCache.set (SQLiteCache.connect fs path).1 path
          (SQLiteCache.connect fs path).2 k v).2 path).1 k = some (.obj v) := by
  have hsql : ∀ t' : KvTable,
      SQLiteCache.get (dictInsert t' k (dumps (.obj v))) k = some (.obj v) := by
    intro t'
    show (match dictGet (dictInsert t' k (dumps (.obj v))) k with
      | some payload => loads payload
      | none => none) = _
    rw [dictGet_dictInsert]
    show loads (dumps (.obj v)) = some (.obj v)
    exact loads_dumps (.obj v)
  refine ⟨dictGet_dictInsert store k v, hsql t, ?_⟩
  show SQLiteCache.get
      (((SQLiteCache.set (SQLiteCache.connect fs path).1 path
        (SQLiteCache.connect fs path).2 k v).2 path).getD []) k = some (.obj v)
  have hfs : (SQLiteCache.set (SQLiteCache.connect fs path).1 path
      (SQLiteCache.connect fs path).2 k v).2 path =
      some (dictInsert (SQLiteCache.connect fs path).1 k (dumps (.obj v))) := by
    show (if path = path then _ else _) = _
    rw [if_pos rfl]
  rw [hfs]
  exact hsql _

end Mappy
